import Mathlib

/-!
Verification of the washing-timer bot core (`src/src/washing_timer.py`).

The Python module keeps a process-wide registry
`active_timers : Dict[user_id, Dict[timer_id, {description, end_time, job, created_at}]]`
plus a job queue of scheduled callbacks.  We embed the registry as an
insertion-ordered association list (the semantics of a Python `dict`),
the job queue as the list of live job ids, and each operation of the
module as a state-passing Lean function translated clause by clause
from the source.
-/

namespace WashingTimer

/-- Python dict lookup: value of the first (hence unique) binding of `k`. -/
def dictLookup {α β : Type} [DecidableEq α] : List (α × β) → α → Option β
  | [], _ => none
  | (k₀, v₀) :: rest, k => if k₀ = k then some v₀ else dictLookup rest k

/-- Python dict assignment `d[k] = v`: update the binding in place if `k`
is present, otherwise append the new binding at the end (insertion order). -/
def dictInsert {α β : Type} [DecidableEq α] : List (α × β) → α → β → List (α × β)
  | [], k, v => [(k, v)]
  | (k₀, v₀) :: rest, k, v =>
      if k₀ = k then (k, v) :: rest else (k₀, v₀) :: dictInsert rest k v

/-- Python `del d[k]` / `d.pop(k, None)`: drop the binding of `k`. -/
def dictRemove {α β : Type} [DecidableEq α] : List (α × β) → α → List (α × β)
  | [], _ => []
  | (k₀, v₀) :: rest, k =>
      if k₀ = k then dictRemove rest k else (k₀, v₀) :: dictRemove rest k

/-- Timer record stored per user: `{"description", "end_time", "job", "created_at"}`
(`washing_timer.py` lines 69–74).  Times are modelled as integer timestamps
and the job handle as the id of the scheduled callback. -/
structure TimerInfo where
  description : String
  end_time : Int
  job : Nat
  created_at : Int
deriving Repr, DecidableEq

/-- Inner dict of one user: `timer_id ↦ TimerInfo`. -/
abbrev UserTimers := List (String × TimerInfo)

/-- The global dict `active_timers : user_id ↦ UserTimers` (line 60). -/
abbrev Registry := List (Nat × UserTimers)

/-- Whole mutable state: the registry plus the ids of the jobs still
scheduled in the job queue (a cancelled or fired job leaves the list). -/
structure BotState where
  active_timers : Registry
  jobs : List Nat
deriving Repr, DecidableEq

/-- Constant `MAX_TIMERS_PER_USER = 10` (line 31). -/
def MAX_TIMERS_PER_USER : Nat := 10

/-- Translation of `get_user_timers` (lines 62–64):
`active_timers.setdefault(user_id, {})`.  Returns the updated registry
together with the user's dict; note that an absent user gains an empty
entry, exactly as `setdefault` does. -/
def get_user_timers (r : Registry) (u : Nat) : Registry × UserTimers :=
  match dictLookup r u with
  | some ts => (r, ts)
  | none => (r ++ [(u, [])], [])

/-- Translation of `add_timer` (lines 66–74): fetch the user's dict via
`get_user_timers` and assign `user_timers[timer_id] = {...}` with
`created_at = datetime.now()` (the clock value is passed in as `now`). -/
def add_timer (r : Registry) (u : Nat) (timer_id : String) (description : String)
    (end_time : Int) (job : Nat) (now : Int) : Registry :=
  let p := get_user_timers r u
  dictInsert p.1 u (dictInsert p.2 timer_id ⟨description, end_time, job, now⟩)

/-- Translation of `remove_timer` (lines 76–95): look the timer up in the
user's dict; if present, cancel its job (`job.schedule_removal()` inside
`try/except`, i.e. erase it from the live job list, a no-op when the job
already fired), delete the timer, and pop the user's entry when the dict
became empty; return whether a timer was found. -/
def remove_timer (s : BotState) (u : Nat) (timer_id : String) : BotState × Bool :=
  let p := get_user_timers s.active_timers u
  match dictLookup p.2 timer_id with
  | none => (⟨p.1, s.jobs⟩, false)
  | some info =>
      let rest := dictRemove p.2 timer_id
      let r₂ := if rest.isEmpty then dictRemove p.1 u else dictInsert p.1 u rest
      (⟨r₂, s.jobs.erase info.job⟩, true)

/-- Translation of `get_timer_count` (lines 97–99):
`len(get_user_timers(user_id))` — with the `setdefault` side effect. -/
def get_timer_count (s : BotState) (u : Nat) : BotState × Nat :=
  let p := get_user_timers s.active_timers u
  (⟨p.1, s.jobs⟩, p.2.length)

/-- Specification-level count at the registry: how many timers user `u`
holds (0 when the user has no entry).  Pure, no `setdefault` effect. -/
def countOfR (r : Registry) (u : Nat) : Nat :=
  match dictLookup r u with
  | some ts => ts.length
  | none => 0

/-- Specification-level count on the whole state. -/
def countOf (s : BotState) (u : Nat) : Nat :=
  countOfR s.active_timers u

/-- Whitespace in the sense of Python's `str.strip()` / `int()` argument
stripping (the characters relevant to digit strings). -/
def isPySpace (c : Char) : Bool :=
  c = ' ' || c = '\t' || c = '\n' || c = '\r' || c = '\x0b' || c = '\x0c'

/-- Numeric value of a list of decimal digit characters. -/
def digitsVal (l : List Char) : Nat :=
  l.foldl (fun a c => a * 10 + (c.toNat - 48)) 0

/-- Python `str.strip()`: drop whitespace from both ends. -/
def pyStrip (l : List Char) : List Char :=
  ((l.dropWhile isPySpace).reverse.dropWhile isPySpace).reverse

/-- Model of Python `int(s)` on the strings reachable here (digits framed
by optional whitespace): strip, then require a nonempty digit string;
`ValueError` is `none`. -/
def pyInt (l : List Char) : Option Nat :=
  let t := pyStrip l
  if t.isEmpty || !t.all Char.isDigit then none else some (digitsVal t)

/-- Model of `re.match(r'^\d+$', s)` (line 329).  In Python, `$` matches
at the end of the string or just before a newline at the end, so the
pattern accepts one or more digits optionally followed by a single
trailing newline. -/
def matchesDigitsAnchored (s : List Char) : Bool :=
  (!s.isEmpty && s.all Char.isDigit) ||
    (s.getLast? = some '\n' && (!s.dropLast.isEmpty && s.dropLast.all Char.isDigit))

/-- Translation of `validate_time_format` (lines 326–369): reject unless
the digits regex matches; 1–3 characters are total minutes in `1..999`,
converted to `(m / 60, m % 60)`; exactly 4 characters are `HHMM` with
`HH ≤ 23`, `MM ≤ 59` and not both zero; longer input is rejected; a
`ValueError` from `int` yields `None`. -/
def validate_time_format (s : List Char) : Option (Nat × Nat) :=
  if !matchesDigitsAnchored s then none
  else if s.length ≤ 3 then
    match pyInt s with
    | none => none
    | some minutes =>
        if !(1 ≤ minutes && minutes ≤ 999) then none
        else some (minutes / 60, minutes % 60)
  else if s.length = 4 then
    match pyInt (s.take 2), pyInt (s.drop 2) with
    | some hours, some minutes =>
        if !(hours ≤ 23) then none
        else if !(minutes ≤ 59) then none
        else if hours = 0 && minutes = 0 then none
        else some (hours, minutes)
    | _, _ => none
  else none

/-- Modelled from the spec's wording of the Time Parser contract (§4.1),
for comparison with `validate_time_format`: digits only (no trailing
newline allowance), length 1–3 is minutes in `1..999`, length 4 is
`HHMM` with ranges checked and `0000` rejected, anything else fails. -/
def specParse (s : List Char) : Option (Nat × Nat) :=
  if s.isEmpty || !s.all Char.isDigit then none
  else if s.length ≤ 3 then
    let m := digitsVal s
    if 1 ≤ m && m ≤ 999 then some (m / 60, m % 60) else none
  else if s.length = 4 then
    let h := digitsVal (s.take 2)
    let m := digitsVal (s.drop 2)
    if h ≤ 23 && m ≤ 59 && !(h = 0 && m = 0) then some (h, m) else none
  else none

/-- The `time_display` string of `handle_time` (line 470). -/
def time_display (h m : Nat) : String :=
  if 0 < h then toString h ++ " ч " ++ toString m ++ " мин"
  else toString m ++ " мин"

/-- The timer description built at line 480; the wall-clock text
`end_time.strftime("%H:%M")` is supplied by the clock as `end_time_str`. -/
def description_of (h m : Nat) (end_time_str : String) : String :=
  time_display h m ++ " (до " ++ end_time_str ++ ")"

/-- Outcome of one text-message submission (`handle_time`). -/
inductive HandleResult where
  | capacityError (count : Nat)
  | formatError
  | created (timer_id : String) (new_count : Nat)
deriving Repr, DecidableEq

/-- Translation of `handle_time` (lines 420–516).  External
nondeterminism is passed in: the uuid-derived `timer_id` (line 473,
drawn with no collision check), the clock `now`, the id `jobId` of the
job obtained from `run_once`, and the formatted end-of-day string.
Capacity is checked first (`timer_count >= max_timers` rejects);
then the input is parsed; on success a job is scheduled and the timer
stored via `add_timer`. -/
def handle_time (s : BotState) (u : Nat) (time_str : List Char) (timer_id : String)
    (now : Int) (jobId : Nat) (end_time_str : String) : BotState × HandleResult :=
  let p := get_timer_count s u
  if MAX_TIMERS_PER_USER ≤ p.2 then (p.1, .capacityError p.2)
  else
    match validate_time_format time_str with
    | none => (p.1, .formatError)
    | some hm =>
        let total_seconds : Int := (hm.1 * 3600 + hm.2 * 60 : Nat)
        let end_time := now + total_seconds
        let description := description_of hm.1 hm.2 end_time_str
        let r' := add_timer p.1.active_timers u timer_id description end_time jobId now
        let s' : BotState := ⟨r', p.1.jobs ++ [jobId]⟩
        (s', .created timer_id (countOf s' u))

/-- The message pushed to the chat transport by `timer_callback`. -/
structure Notification where
  chat_id : Nat
  description : String
  remaining_count : Nat
deriving Repr, DecidableEq

/-- Translation of `timer_callback` (lines 372–417): remove the timer
from the registry, binding the result to `timer_removed` (line 385) —
which the function then never consults — compute the remaining count,
and send the completion message unconditionally (delivery failure is
caught and logged, line 416).  The returned `Bool` is `timer_removed`;
the returned `Notification` is the message the callback attempts to
send. -/
def timer_callback (s : BotState) (u : Nat) (timer_id : String) (description : String) :
    BotState × Bool × Option Notification :=
  let p := remove_timer s u timer_id
  let q := get_timer_count p.1 u
  (q.1, p.2, some ⟨u, description, q.2⟩)

/-- One iteration of the cancellation loop
`for timer_id in user_timers: if remove_timer(user_id, timer_id):
cancelled_count += 1` (lines 260–262 and 594–596). -/
def cancelStep (u : Nat) (acc : BotState × Nat) (pr : String × TimerInfo) :
    BotState × Nat :=
  let r := remove_timer acc.1 u pr.1
  (r.1, if r.2 then acc.2 + 1 else acc.2)

/-- Translation of the bulk-cancellation code shared by the `/cancel`
command (`cancel_timer`, lines 249–273) and the `cancel_all_timers`
button branch of `button_callback` (lines 586–617): if the count is
positive, snapshot the user's dict with `.copy()`, call `remove_timer`
for each id in it, and count the successful removals. -/
def cancel_all_timers (s : BotState) (u : Nat) : BotState × Nat :=
  let p := get_timer_count s u
  if 0 < p.2 then
    let q := get_user_timers p.1.active_timers u
    q.2.foldl (cancelStep u) (⟨q.1, p.1.jobs⟩, 0)
  else (p.1, 0)

/-- Ordering used at lines 112–115: sort the user's timers by their
`created_at` field. -/
def createdLe (a b : String × TimerInfo) : Prop :=
  a.2.created_at ≤ b.2.created_at

instance : DecidableRel createdLe :=
  fun a b => inferInstanceAs (Decidable (a.2.created_at ≤ b.2.created_at))

instance : IsTotal (String × TimerInfo) createdLe :=
  ⟨fun a b => Int.le_total a.2.created_at b.2.created_at⟩

instance : IsTrans (String × TimerInfo) createdLe :=
  ⟨fun _ _ _ hab hbc => Int.le_trans hab hbc⟩

/-- Translation of the list/view builder `format_timer_list`
(lines 101–171).  The text rendering and button labels are elided; what
is kept is the structural content of the page: `none` models the early
"no active timers" screen (line 108), and otherwise the slice
`sorted_timers[start_idx:end_idx]` of the `created_at`-sorted timers
(Python's `sorted` is a stable sort, embedded as a stable insertion
sort) together with the two booleans deciding whether the `page > 0`
back button (line 157) and the `end_idx < total_count` forward button
(line 159) are added. -/
def format_timer_list (r : Registry) (u : Nat) (page : Nat) (items_per_page : Nat) :
    Registry × Option (List (String × TimerInfo) × Bool × Bool) :=
  let p := get_user_timers r u
  if p.2.isEmpty then (p.1, none)
  else
    let sorted_timers := List.insertionSort createdLe p.2
    let total_count := sorted_timers.length
    let start_idx := page * items_per_page
    let end_idx := start_idx + items_per_page
    let page_timers := (sorted_timers.drop start_idx).take items_per_page
    (p.1, some (page_timers, decide (0 < page), decide (end_idx < total_count)))

/-- One externally-triggered transition of the bot, covering every code
path of the module that touches `active_timers` or the job queue:
`touch` is the bare `setdefault` effect of the read-only handlers
(`start`, `help`, `status`, `new_timer`, `get_timer_count` callers),
`submit` a text message (`handle_time`), `cancelOne` the
`cancel_timer_…` button, `cancelAll` the `/cancel` command and the
`cancel_all_timers` button, `fire` an expiry callback, `jobFires` the
scheduler dequeuing a job at its fire time, and `viewList` the
`list_timers` pagination screens. -/
inductive Step : BotState → BotState → Prop where
  | touch (s : BotState) (u : Nat) :
      Step s ⟨(get_user_timers s.active_timers u).1, s.jobs⟩
  | submit (s : BotState) (u : Nat) (time_str : List Char) (timer_id : String)
      (now : Int) (jobId : Nat) (ets : String) :
      Step s (handle_time s u time_str timer_id now jobId ets).1
  | cancelOne (s : BotState) (u : Nat) (timer_id : String) :
      Step s (remove_timer s u timer_id).1
  | cancelAll (s : BotState) (u : Nat) :
      Step s (cancel_all_timers s u).1
  | fire (s : BotState) (u : Nat) (timer_id : String) (d : String) :
      Step s (timer_callback s u timer_id d).1
  | jobFires (s : BotState) (j : Nat) :
      Step s ⟨s.active_timers, s.jobs.erase j⟩
  | viewList (s : BotState) (u page n : Nat) :
      Step s ⟨(format_timer_list s.active_timers u page n).1, s.jobs⟩

/-- States reachable from the initial empty registry (line 60: the
module starts with `active_timers = {}` and nothing scheduled). -/
inductive Reachable : BotState → Prop where
  | init : Reachable ⟨[], []⟩
  | step {s t : BotState} : Reachable s → Step s t → Reachable t

/-- Registry-level lookup of a single timer. -/
def timerOfR (r : Registry) (u : Nat) (timer_id : String) : Option TimerInfo :=
  match dictLookup r u with
  | some ts => dictLookup ts timer_id
  | none => none

/-- State-level lookup of a single timer of user `u`. -/
def timerOf (s : BotState) (u : Nat) (timer_id : String) : Option TimerInfo :=
  timerOfR s.active_timers u timer_id

/-- Well-formed dict: keys are pairwise distinct (true of every Python
dict, hence of `active_timers` and of each user's inner dict). -/
def KeysNodup {α β : Type} (l : List (α × β)) : Prop :=
  (l.map Prod.fst).Nodup

/-- Owner entries never hold an empty timer dict (§3 registry invariant). -/
def NoEmptyEntries (r : Registry) : Prop :=
  ∀ p ∈ r, p.2 ≠ []

section DictLemmas

variable {α β : Type} [DecidableEq α]

theorem dictLookup_append (l m : List (α × β)) (k : α) :
    dictLookup (l ++ m) k =
      match dictLookup l k with
      | some v => some v
      | none => dictLookup m k := by
  induction l with
  | nil => simp [dictLookup]
  | cons p rest ih =>
      rcases p with ⟨k₀, v₀⟩
      by_cases h : k₀ = k <;> simp [dictLookup, h, ih]

theorem dictLookup_insert_self (l : List (α × β)) (k : α) (v : β) :
    dictLookup (dictInsert l k v) k = some v := by
  induction l with
  | nil => simp [dictInsert, dictLookup]
  | cons p rest ih =>
      rcases p with ⟨k₀, v₀⟩
      by_cases h : k₀ = k <;> simp [dictInsert, dictLookup, h, ih]

theorem dictLookup_insert_other (l : List (α × β)) (k k' : α) (v : β) (h : k' ≠ k) :
    dictLookup (dictInsert l k v) k' = dictLookup l k' := by
  have h' : ¬ k = k' := fun hh => h hh.symm
  induction l with
  | nil => simp [dictInsert, dictLookup, h']
  | cons p rest ih =>
      rcases p with ⟨k₀, v₀⟩
      by_cases h₀ : k₀ = k
      · subst h₀
        simp [dictInsert, dictLookup, h']
      · simp only [dictInsert, if_neg h₀, dictLookup]
        by_cases h₁ : k₀ = k' <;> simp [h₁, ih]

theorem dictLookup_remove_self (l : List (α × β)) (k : α) :
    dictLookup (dictRemove l k) k = none := by
  induction l with
  | nil => simp [dictRemove, dictLookup]
  | cons p rest ih =>
      rcases p with ⟨k₀, v₀⟩
      by_cases h : k₀ = k
      · simpa [dictRemove, h] using ih
      · simpa [dictRemove, dictLookup, h] using ih

theorem dictLookup_remove_other (l : List (α × β)) (k k' : α) (h : k' ≠ k) :
    dictLookup (dictRemove l k) k' = dictLookup l k' := by
  induction l with
  | nil => simp [dictRemove, dictLookup]
  | cons p rest ih =>
      rcases p with ⟨k₀, v₀⟩
      by_cases h₀ : k₀ = k
      · subst h₀
        have h' : ¬ k₀ = k' := fun hh => h hh.symm
        simpa [dictRemove, dictLookup, h'] using ih
      · simp only [dictRemove, if_neg h₀, dictLookup]
        by_cases h₁ : k₀ = k' <;> simp [h₁, ih]

theorem dictLookup_eq_none_of_keys (l : List (α × β)) (k : α)
    (h : ∀ p ∈ l, p.1 ≠ k) : dictLookup l k = none := by
  induction l with
  | nil => simp [dictLookup]
  | cons p rest ih =>
      rcases p with ⟨k₀, v₀⟩
      have hk : k₀ ≠ k := h (k₀, v₀) (by simp)
      simp [dictLookup, hk]
      exact ih fun q hq => h q (by simp [hq])

theorem dictLookup_none_of_not_key (l : List (α × β)) (k : α)
    (h : dictLookup l k = none) : k ∉ l.map Prod.fst := by
  induction l with
  | nil => simp
  | cons p rest ih =>
      rcases p with ⟨k₀, v₀⟩
      by_cases hk : k₀ = k
      · simp [dictLookup, hk] at h
      · simp only [dictLookup, if_neg hk] at h
        simp only [List.map_cons, List.mem_cons]
        rintro (he | he)
        · exact hk he.symm
        · exact ih h he

theorem length_dictInsert_le (l : List (α × β)) (k : α) (v : β) :
    (dictInsert l k v).length ≤ l.length + 1 := by
  induction l with
  | nil => simp [dictInsert]
  | cons p rest ih =>
      rcases p with ⟨k₀, v₀⟩
      by_cases h : k₀ = k
      · simp [dictInsert, h]
      · simp [dictInsert, h]
        omega

theorem length_dictInsert_of_lookup_some (l : List (α × β)) (k : α) (v w : β)
    (h : dictLookup l k = some w) : (dictInsert l k v).length = l.length := by
  induction l with
  | nil => simp [dictLookup] at h
  | cons p rest ih =>
      rcases p with ⟨k₀, v₀⟩
      by_cases hk : k₀ = k
      · simp [dictInsert, hk]
      · simp [dictLookup, hk] at h
        simp [dictInsert, hk, ih h]

theorem length_dictInsert_of_lookup_none (l : List (α × β)) (k : α) (v : β)
    (h : dictLookup l k = none) : (dictInsert l k v).length = l.length + 1 := by
  induction l with
  | nil => simp [dictInsert]
  | cons p rest ih =>
      rcases p with ⟨k₀, v₀⟩
      by_cases hk : k₀ = k
      · simp [dictLookup, hk] at h
      · simp [dictLookup, hk] at h
        simp [dictInsert, hk, ih h]

theorem length_dictRemove_le (l : List (α × β)) (k : α) :
    (dictRemove l k).length ≤ l.length := by
  induction l with
  | nil => simp [dictRemove]
  | cons p rest ih =>
      rcases p with ⟨k₀, v₀⟩
      by_cases h : k₀ = k <;> simp [dictRemove, h] <;> omega

theorem dictInsert_ne_nil (l : List (α × β)) (k : α) (v : β) :
    dictInsert l k v ≠ [] := by
  cases l with
  | nil => simp [dictInsert]
  | cons p rest =>
      rcases p with ⟨k₀, v₀⟩
      by_cases h : k₀ = k <;> simp [dictInsert, h]

theorem mem_dictInsert_of_nodup (l : List (α × β)) (k : α) (v : β) (p : α × β)
    (hnd : KeysNodup l) (hp : p ∈ dictInsert l k v) :
    p = (k, v) ∨ (p ∈ l ∧ p.1 ≠ k) := by
  induction l with
  | nil => simp [dictInsert] at hp; simp [hp]
  | cons q rest ih =>
      rcases q with ⟨k₀, v₀⟩
      rcases List.nodup_cons.mp hnd with ⟨hk₀, hrest⟩
      by_cases h : k₀ = k
      · subst h
        simp [dictInsert] at hp
        rcases hp with hp | hp
        · left; simp [hp]
        · right
          refine ⟨List.mem_cons_of_mem _ hp, ?_⟩
          intro hk
          have hmem : p.1 ∈ rest.map Prod.fst := List.mem_map_of_mem Prod.fst hp
          exact hk₀ (hk ▸ hmem)
      · simp [dictInsert, h] at hp
        rcases hp with hp | hp
        · right
          refine ⟨by simp [hp], ?_⟩
          simp [hp, h]
        · rcases ih hrest hp with h' | h'
          · exact Or.inl h'
          · exact Or.inr ⟨List.mem_cons_of_mem _ h'.1, h'.2⟩

theorem dictRemove_of_no_key (l : List (α × β)) (k : α)
    (h : ∀ p ∈ l, p.1 ≠ k) : dictRemove l k = l := by
  induction l with
  | nil => simp [dictRemove]
  | cons p rest ih =>
      rcases p with ⟨k₀, v₀⟩
      have hk : k₀ ≠ k := h (k₀, v₀) (by simp)
      simp [dictRemove, hk]
      exact ih fun q hq => h q (by simp [hq])

theorem length_dictRemove_of_nodup (l : List (α × β)) (k : α) (w : β)
    (hnd : KeysNodup l) (h : dictLookup l k = some w) :
    (dictRemove l k).length = l.length - 1 := by
  induction l with
  | nil => simp [dictLookup] at h
  | cons p rest ih =>
      rcases p with ⟨k₀, v₀⟩
      rcases List.nodup_cons.mp hnd with ⟨hk₀, hrest⟩
      by_cases hk : k₀ = k
      · subst hk
        have hno : ∀ p ∈ rest, p.1 ≠ k₀ := by
          intro q hq he
          have hmem : q.1 ∈ rest.map Prod.fst := List.mem_map_of_mem Prod.fst hq
          exact hk₀ (he ▸ hmem)
        simp [dictRemove, dictRemove_of_no_key rest k₀ hno]
      · simp only [dictLookup, if_neg hk] at h
        have hlen := ih hrest h
        have hpos : 1 ≤ rest.length := by
          cases rest with
          | nil => simp [dictLookup] at h
          | cons _ _ => simp
        simp [dictRemove, hk, hlen]
        omega

theorem mem_dictRemove_sub (l : List (α × β)) (k : α) (p : α × β)
    (hp : p ∈ dictRemove l k) : p ∈ l := by
  induction l with
  | nil => simp [dictRemove] at hp
  | cons q rest ih =>
      rcases q with ⟨k₀, v₀⟩
      by_cases h : k₀ = k
      · simp only [dictRemove, if_pos h] at hp
        exact List.mem_cons_of_mem _ (ih hp)
      · simp only [dictRemove, if_neg h] at hp
        rcases List.mem_cons.mp hp with hp | hp
        · simp [hp]
        · exact List.mem_cons_of_mem _ (ih hp)

theorem dictRemove_eq_nil_keys (l : List (α × β)) (k : α)
    (h : dictRemove l k = []) : ∀ p ∈ l, p.1 = k := by
  induction l with
  | nil => simp
  | cons p rest ih =>
      rcases p with ⟨k₀, v₀⟩
      by_cases hk : k₀ = k
      · subst hk
        simp only [dictRemove, if_pos rfl] at h
        intro q hq
        rcases List.mem_cons.mp hq with hq | hq
        · simp [hq]
        · exact ih h q hq
      · simp [dictRemove, hk] at h

end DictLemmas

section OpLemmas

theorem gut_lookup_self (r : Registry) (u : Nat) :
    dictLookup (get_user_timers r u).1 u = some (get_user_timers r u).2 := by
  unfold get_user_timers
  cases h : dictLookup r u with
  | some ts => simpa using h
  | none =>
      simp only
      rw [dictLookup_append, h]
      simp [dictLookup]

theorem gut_lookup_other (r : Registry) (u v : Nat) (h : v ≠ u) :
    dictLookup (get_user_timers r u).1 v = dictLookup r v := by
  unfold get_user_timers
  cases hu : dictLookup r u with
  | some ts => simp
  | none =>
      simp only
      rw [dictLookup_append]
      cases hv : dictLookup r v with
      | some w => simp
      | none =>
          have h' : ¬ u = v := fun hh => h hh.symm
          simp [dictLookup, h']

theorem gut_snd_length (r : Registry) (u : Nat) :
    (get_user_timers r u).2.length = countOfR r u := by
  unfold get_user_timers countOfR
  cases h : dictLookup r u <;> simp [h]

theorem gut_idem (r : Registry) (u : Nat) :
    get_user_timers (get_user_timers r u).1 u =
      ((get_user_timers r u).1, (get_user_timers r u).2) := by
  conv_lhs => rw [get_user_timers]
  rw [gut_lookup_self]

theorem countOfR_touch (r : Registry) (u v : Nat) :
    countOfR (get_user_timers r u).1 v = countOfR r v := by
  by_cases h : v = u
  · subst h
    have h1 : countOfR (get_user_timers r v).1 v = (get_user_timers r v).2.length := by
      unfold countOfR
      rw [gut_lookup_self]
    rw [h1, gut_snd_length]
  · unfold countOfR
    rw [gut_lookup_other r u v h]

theorem gut_snd_lookup (r : Registry) (u : Nat) (tt : String) :
    dictLookup (get_user_timers r u).2 tt = timerOfR r u tt := by
  unfold get_user_timers timerOfR
  cases hu : dictLookup r u <;> simp [hu, dictLookup]

theorem timerOfR_touch (r : Registry) (u v : Nat) (tt : String) :
    timerOfR (get_user_timers r u).1 v tt = timerOfR r v tt := by
  by_cases h : v = u
  · subst h
    have h1 : timerOfR (get_user_timers r v).1 v tt =
        dictLookup (get_user_timers r v).2 tt := by
      unfold timerOfR
      rw [gut_lookup_self]
    rw [h1, gut_snd_lookup]
  · unfold timerOfR
    rw [gut_lookup_other r u v h]

theorem remove_timer_not_found (s : BotState) (u : Nat) (t : String)
    (h : timerOf s u t = none) :
    remove_timer s u t = (⟨(get_user_timers s.active_timers u).1, s.jobs⟩, false) := by
  unfold timerOf timerOfR at h
  unfold remove_timer
  cases hu : dictLookup s.active_timers u with
  | some ts =>
      have ht : dictLookup ts t = none := by simpa [hu] using h
      simp [get_user_timers, hu, ht]
  | none =>
      simp [get_user_timers, hu, dictLookup]

theorem remove_timer_found (s : BotState) (u : Nat) (t : String) (ts : UserTimers)
    (info : TimerInfo) (hu : dictLookup s.active_timers u = some ts)
    (ht : dictLookup ts t = some info) :
    remove_timer s u t =
      (⟨if (dictRemove ts t).isEmpty then dictRemove s.active_timers u
        else dictInsert s.active_timers u (dictRemove ts t),
        s.jobs.erase info.job⟩, true) := by
  unfold remove_timer
  simp [get_user_timers, hu, ht]

theorem remove_timer_false_iff (s : BotState) (u : Nat) (t : String) :
    (remove_timer s u t).2 = false ↔ timerOf s u t = none := by
  constructor
  · intro h
    cases hto : timerOf s u t with
    | none => rfl
    | some info =>
        unfold timerOf timerOfR at hto
        cases hu : dictLookup s.active_timers u with
        | none => simp [hu] at hto
        | some ts =>
            rw [hu] at hto
            rw [remove_timer_found s u t ts info hu hto] at h
            simp at h
  · intro h
    rw [remove_timer_not_found s u t h]

theorem countOf_remove_le (s : BotState) (u : Nat) (t : String) (v : Nat) :
    countOf (remove_timer s u t).1 v ≤ countOf s v := by
  unfold countOf
  cases hu : dictLookup s.active_timers u with
  | none =>
      have h : timerOf s u t = none := by simp [timerOf, timerOfR, hu]
      rw [remove_timer_not_found s u t h]
      simp [countOfR_touch]
  | some ts =>
      cases ht : dictLookup ts t with
      | none =>
          have h : timerOf s u t = none := by simp [timerOf, timerOfR, hu, ht]
          rw [remove_timer_not_found s u t h]
          simp [countOfR_touch]
      | some info =>
          rw [remove_timer_found s u t ts info hu ht]
          by_cases hv : v = u
          · subst hv
            by_cases he : (dictRemove ts t).isEmpty
            · simp only [he, if_pos]
              unfold countOfR
              rw [dictLookup_remove_self]
              simp
            · simp only [he, if_neg, Bool.false_eq_true, not_false_eq_true]
              unfold countOfR
              rw [dictLookup_insert_self, hu]
              exact length_dictRemove_le ts t
          · by_cases he : (dictRemove ts t).isEmpty
            · simp only [he, if_pos]
              unfold countOfR
              rw [dictLookup_remove_other _ _ _ hv]
            · simp only [he, if_neg, Bool.false_eq_true, not_false_eq_true]
              unfold countOfR
              rw [dictLookup_insert_other _ _ _ _ hv]

theorem format_timer_list_fst (r : Registry) (u page n : Nat) :
    (format_timer_list r u page n).1 = (get_user_timers r u).1 := by
  unfold format_timer_list
  by_cases h : (get_user_timers r u).2.isEmpty <;> simp [h]

theorem countOf_handle_le (s : BotState) (u : Nat) (tstr : List Char) (tid : String)
    (now : Int) (jobId : Nat) (ets : String)
    (h : ∀ w, countOf s w ≤ MAX_TIMERS_PER_USER) (v : Nat) :
    countOf (handle_time s u tstr tid now jobId ets).1 v ≤ MAX_TIMERS_PER_USER := by
  unfold handle_time get_timer_count
  by_cases hc : MAX_TIMERS_PER_USER ≤ (get_user_timers s.active_timers u).2.length
  · simp only [hc, if_pos]
    unfold countOf
    rw [countOfR_touch]
    exact h v
  · simp only [hc, if_neg, not_false_eq_true]
    cases hp : validate_time_format tstr with
    | none =>
        simp only
        unfold countOf
        rw [countOfR_touch]
        exact h v
    | some hm =>
        simp only
        unfold add_timer
        rw [gut_idem]
        simp only
        unfold countOf
        by_cases hv : v = u
        · subst hv
          unfold countOfR
          rw [dictLookup_insert_self]
          have h1 : (dictInsert (get_user_timers s.active_timers v).2 tid
              ⟨description_of hm.1 hm.2 ets,
                now + ((hm.1 * 3600 + hm.2 * 60 : Nat) : Int), jobId, now⟩).length ≤
              (get_user_timers s.active_timers v).2.length + 1 :=
            length_dictInsert_le _ _ _
          have h2 : (get_user_timers s.active_timers v).2.length = countOfR s.active_timers v :=
            gut_snd_length _ _
          have h3 : countOfR s.active_timers v ≤ MAX_TIMERS_PER_USER - 1 := by
            have hcv := h v
            unfold countOf at hcv
            have hmx : MAX_TIMERS_PER_USER = 10 := rfl
            omega
          show (dictInsert (get_user_timers s.active_timers v).2 tid
              ⟨description_of hm.1 hm.2 ets,
                now + ((hm.1 * 3600 + hm.2 * 60 : Nat) : Int), jobId, now⟩).length ≤
            MAX_TIMERS_PER_USER
          have hmx : MAX_TIMERS_PER_USER = 10 := rfl
          omega
        · unfold countOfR
          rw [dictLookup_insert_other _ _ _ _ hv, gut_lookup_other _ _ _ hv]
          exact h v

theorem countOf_foldRemove_le (u : Nat) (ts : List (String × TimerInfo)) :
    ∀ (sc : BotState × Nat) (v : Nat),
      countOf (ts.foldl (cancelStep u) sc).1 v ≤ countOf sc.1 v := by
  induction ts with
  | nil => intro sc v; simp
  | cons p rest ih =>
      intro sc v
      simp only [List.foldl_cons]
      refine le_trans (ih _ v) ?_
      show countOf (cancelStep u sc p).1 v ≤ countOf sc.1 v
      unfold cancelStep
      exact countOf_remove_le sc.1 u p.1 v

theorem countOf_cancel_all_le (s : BotState) (u v : Nat) :
    countOf (cancel_all_timers s u).1 v ≤ countOf s v := by
  unfold cancel_all_timers get_timer_count
  by_cases hc : 0 < (get_user_timers s.active_timers u).2.length
  · simp only [hc, if_pos]
    refine le_trans (countOf_foldRemove_le u _ _ v) ?_
    simp only
    unfold countOf
    rw [countOfR_touch, countOfR_touch]
  · simp only [hc, if_neg, not_false_eq_true]
    unfold countOf
    rw [countOfR_touch]

theorem countOf_timer_callback_le (s : BotState) (u : Nat) (t d : String) (v : Nat) :
    countOf (timer_callback s u t d).1 v ≤ countOf s v := by
  unfold timer_callback get_timer_count
  simp only
  refine le_trans (le_of_eq ?_) (countOf_remove_le s u t v)
  unfold countOf
  rw [countOfR_touch]

end OpLemmas

section ParserLemmas

theorem isPySpace_eq_false_of_isDigit (c : Char) (h : c.isDigit = true) :
    isPySpace c = false := by
  unfold isPySpace
  simp only [Bool.or_eq_false_iff, decide_eq_false_iff_not]
  refine ⟨⟨⟨⟨⟨?_, ?_⟩, ?_⟩, ?_⟩, ?_⟩, ?_⟩ <;> (rintro rfl; revert h; decide)

theorem dropWhile_eq_self_of_all_false {p : Char → Bool} (l : List Char)
    (h : ∀ c ∈ l, p c = false) : l.dropWhile p = l := by
  cases l with
  | nil => rfl
  | cons c cs =>
      rw [List.dropWhile_cons, h c (by simp)]
      simp

theorem pyStrip_digits (l : List Char) (h : l.all Char.isDigit = true) :
    pyStrip l = l := by
  have h' : ∀ c ∈ l, isPySpace c = false := fun c hc =>
    isPySpace_eq_false_of_isDigit c (List.all_eq_true.mp h c hc)
  have h'' : ∀ c ∈ l.reverse, isPySpace c = false := fun c hc =>
    h' c (List.mem_reverse.mp hc)
  unfold pyStrip
  rw [dropWhile_eq_self_of_all_false l h', dropWhile_eq_self_of_all_false _ h'',
    List.reverse_reverse]

theorem pyInt_digits (l : List Char) (hne : l ≠ []) (h : l.all Char.isDigit = true) :
    pyInt l = some (digitsVal l) := by
  unfold pyInt
  rw [pyStrip_digits l h]
  have hemp : l.isEmpty = false := by
    cases l with
    | nil => exact absurd rfl hne
    | cons _ _ => rfl
  simp [hemp, h]

theorem pyStrip_digits_newline (l : List Char) (hne : l ≠ [])
    (h : l.all Char.isDigit = true) : pyStrip (l ++ ['\n']) = l := by
  have h' : ∀ c ∈ l, isPySpace c = false := fun c hc =>
    isPySpace_eq_false_of_isDigit c (List.all_eq_true.mp h c hc)
  have h'' : ∀ c ∈ l.reverse, isPySpace c = false := fun c hc =>
    h' c (List.mem_reverse.mp hc)
  have hfront : (l ++ ['\n']).dropWhile isPySpace = l ++ ['\n'] := by
    cases l with
    | nil => exact absurd rfl hne
    | cons c cs =>
        rw [List.cons_append, List.dropWhile_cons, h' c (by simp)]
        simp
  unfold pyStrip
  rw [hfront, List.reverse_append]
  show (List.dropWhile isPySpace ('\n' :: l.reverse)).reverse = l
  rw [List.dropWhile_cons]
  have : isPySpace '\n' = true := by decide
  rw [this]
  simp only [if_pos]
  rw [dropWhile_eq_self_of_all_false _ h'', List.reverse_reverse]

theorem pyInt_digits_newline (l : List Char) (hne : l ≠ [])
    (h : l.all Char.isDigit = true) :
    pyInt (l ++ ['\n']) = some (digitsVal l) := by
  unfold pyInt
  rw [pyStrip_digits_newline l hne h]
  have hemp : l.isEmpty = false := by
    cases l with
    | nil => exact absurd rfl hne
    | cons _ _ => rfl
  simp [hemp, h]

theorem isEmpty_false_of_ne_nil {α : Type} {l : List α} (h : l ≠ []) :
    l.isEmpty = false := by
  cases l with
  | nil => exact absurd rfl h
  | cons _ _ => rfl

end ParserLemmas

/-- C2 counterexample: the claim says any input containing a non-digit
fails, but Python's `$` matches before a trailing newline and `int`
strips whitespace, so `"1\n"` — which contains the non-digit `'\n'` —
parses successfully as 1 minute. -/
theorem c2_counterexample :
    validate_time_format (String.toList "1\n") = some (0, 1) ∧
    '\n' ∈ String.toList "1\n" ∧ ('\n').isDigit = false := by
  decide

/-- C2 (amended): the claim's case analysis is exact for every input not
ending in a newline (`validate_time_format` agrees with the spec-side
`specParse` there); additionally a nonempty digit string followed by one
trailing newline is accepted by the digits check, the branch is selected
by the length including the newline, and the integer conversions ignore
the newline; a newline-terminated string whose body is not a nonempty
digit string still fails. -/
theorem c2_amended_parse_characterization :
    (∀ s : List Char, s.getLast? ≠ some '\n' →
      validate_time_format s = specParse s) ∧
    (∀ t : List Char, t ≠ [] → t.all Char.isDigit = true →
      validate_time_format (t ++ ['\n']) =
        (if t.length + 1 ≤ 3 then
          (if 1 ≤ digitsVal t && digitsVal t ≤ 999 then
            some (digitsVal t / 60, digitsVal t % 60) else none)
        else if t.length + 1 = 4 then
          (if digitsVal (t.take 2) ≤ 23 && digitsVal (t.drop 2) ≤ 59 &&
              !(digitsVal (t.take 2) = 0 && digitsVal (t.drop 2) = 0) then
            some (digitsVal (t.take 2), digitsVal (t.drop 2)) else none)
        else none)) ∧
    (∀ s : List Char, s.getLast? = some '\n' →
      ¬(s.dropLast ≠ [] ∧ s.dropLast.all Char.isDigit = true) →
      validate_time_format s = none) := by
  refine ⟨?_, ?_, ?_⟩
  · intro s hlast
    by_cases hnil : s = []
    · subst hnil; decide
    · have hempf : s.isEmpty = false := isEmpty_false_of_ne_nil hnil
      have hb : decide (s.getLast? = some '\n') = false := decide_eq_false hlast
      by_cases hall : s.all Char.isDigit = true
      · have hmatch : matchesDigitsAnchored s = true := by
          unfold matchesDigitsAnchored
          simp [hempf, hall]
        unfold validate_time_format specParse
        rw [hmatch]
        simp only [Bool.not_true, Bool.false_eq_true, if_false, hempf, hall,
          Bool.not_true, Bool.or_false, Bool.false_or]
        by_cases h3 : s.length ≤ 3
        · rw [pyInt_digits s hnil hall]
          simp only [h3, if_pos]
          cases hc : (decide (1 ≤ digitsVal s) && decide (digitsVal s ≤ 999)) <;>
            simp [hc]
        · by_cases h4 : s.length = 4
          · have htk_ne : s.take 2 ≠ [] := by
              intro he
              have : (s.take 2).length = 2 := by rw [List.length_take]; omega
              rw [he] at this
              simp at this
            have htk_all : (s.take 2).all Char.isDigit = true :=
              List.all_eq_true.mpr fun c hc =>
                List.all_eq_true.mp hall c (List.take_subset 2 s hc)
            have hdr_ne : s.drop 2 ≠ [] := by
              intro he
              have : (s.drop 2).length = 2 := by rw [List.length_drop]; omega
              rw [he] at this
              simp at this
            have hdr_all : (s.drop 2).all Char.isDigit = true :=
              List.all_eq_true.mpr fun c hc =>
                List.all_eq_true.mp hall c (List.drop_subset 2 s hc)
            rw [pyInt_digits _ htk_ne htk_all, pyInt_digits _ hdr_ne hdr_all]
            simp only [h3, if_neg, h4, if_pos, not_false_eq_true]
            cases hc1 : decide (digitsVal (s.take 2) ≤ 23) <;>
              cases hc2 : decide (digitsVal (s.drop 2) ≤ 59) <;>
              cases hc3 : decide (digitsVal (s.take 2) = 0) <;>
              cases hc4 : decide (digitsVal (s.drop 2) = 0) <;>
              simp [hc1, hc2, hc3, hc4]
          · simp [h3, h4]
      · have hallf : s.all Char.isDigit = false := by
          cases hx : s.all Char.isDigit with
          | false => rfl
          | true => exact absurd hx hall
        have hmatch : matchesDigitsAnchored s = false := by
          unfold matchesDigitsAnchored
          simp [hallf, hb]
        unfold validate_time_format specParse
        rw [hmatch]
        simp [hallf]
  · intro t hne hall
    have hef : t.isEmpty = false := isEmpty_false_of_ne_nil hne
    have hlast : (t ++ ['\n']).getLast? = some '\n' := List.getLast?_concat t
    have hdl : (t ++ ['\n']).dropLast = t := List.dropLast_concat
    have hmatch : matchesDigitsAnchored (t ++ ['\n']) = true := by
      unfold matchesDigitsAnchored
      rw [hlast, hdl]
      simp [hef, hall]
    unfold validate_time_format
    rw [hmatch]
    have hlen : (t ++ ['\n']).length = t.length + 1 := by simp
    simp only [Bool.not_true, Bool.false_eq_true, if_false, hlen]
    by_cases h3 : t.length + 1 ≤ 3
    · rw [pyInt_digits_newline t hne hall]
      simp only [h3, if_pos]
      cases hc : (decide (1 ≤ digitsVal t) && decide (digitsVal t ≤ 999)) <;>
        simp [hc]
    · by_cases h4 : t.length + 1 = 4
      · have htlen : t.length = 3 := by omega
        have htake : (t ++ ['\n']).take 2 = t.take 2 :=
          List.take_append_of_le_length (by omega)
        have hdrop : (t ++ ['\n']).drop 2 = t.drop 2 ++ ['\n'] :=
          List.drop_append_of_le_length (by omega)
        have htk_ne : t.take 2 ≠ [] := by
          intro he
          have : (t.take 2).length = 2 := by rw [List.length_take]; omega
          rw [he] at this
          simp at this
        have htk_all : (t.take 2).all Char.isDigit = true :=
          List.all_eq_true.mpr fun c hc =>
            List.all_eq_true.mp hall c (List.take_subset 2 t hc)
        have hdr_ne : t.drop 2 ≠ [] := by
          intro he
          have : (t.drop 2).length = 1 := by rw [List.length_drop]; omega
          rw [he] at this
          simp at this
        have hdr_all : (t.drop 2).all Char.isDigit = true :=
          List.all_eq_true.mpr fun c hc =>
            List.all_eq_true.mp hall c (List.drop_subset 2 t hc)
        rw [htake, hdrop, pyInt_digits _ htk_ne htk_all,
          pyInt_digits_newline _ hdr_ne hdr_all]
        simp only [h3, if_neg, h4, if_pos, not_false_eq_true]
        cases hc1 : decide (digitsVal (t.take 2) ≤ 23) <;>
          cases hc2 : decide (digitsVal (t.drop 2) ≤ 59) <;>
          cases hc3 : decide (digitsVal (t.take 2) = 0) <;>
          cases hc4 : decide (digitsVal (t.drop 2) = 0) <;>
          simp [hc1, hc2, hc3, hc4]
      · simp [h3, h4]
  · intro s hlast h2
    have hmem : '\n' ∈ s := List.mem_of_mem_getLast? hlast
    have hallf : s.all Char.isDigit = false := by
      cases hx : s.all Char.isDigit with
      | false => rfl
      | true =>
          have hd : ('\n').isDigit = true := List.all_eq_true.mp hx '\n' hmem
          exact absurd hd (by decide)
    have hmatch : matchesDigitsAnchored s = false := by
      unfold matchesDigitsAnchored
      rw [hallf]
      rcases not_and_or.mp h2 with hd | hd
      · have hdl : s.dropLast = [] := not_ne_iff.mp hd
        simp [hdl]
      · have hdf : s.dropLast.all Char.isDigit = false := by
          cases hx : s.dropLast.all Char.isDigit with
          | false => rfl
          | true => exact absurd hx hd
        simp [hdf]
    unfold validate_time_format
    rw [hmatch]
    simp

/-- C2 witness: the agreement with the spec's case analysis applied at
the concrete input `"90"`. -/
theorem c2_witness :
    validate_time_format (String.toList "90") = specParse (String.toList "90") :=
  c2_amended_parse_characterization.1 (String.toList "90") (by decide)

/-- C1: the Expiry Handler (`timer_callback`) removes the timer, but it
binds the removal result to a variable it never consults: invoked for a
timer that the registry no longer holds (already cancelled), it still
emits the "timer fired" notification.  Here the registry is empty, the
removal returns `false`, and a notification to chat 7 is produced
anyway — contradicting the claim that a cancelled timer is suppressed. -/
theorem c1_notification_sent_despite_cancelled :
    timer_callback ⟨[], []⟩ 7 "x" "d" =
      (⟨[(7, [])], []⟩, false, some ⟨7, "d", 0⟩) := by
  decide

/-- C3 counterexample: the claim says `parse("1000")` fails, but
`validate_time_format` treats every 4-digit string as `HHMM`, and
`"1000"` is the valid time 10 hours 00 minutes. -/
theorem c3_counterexample :
    validate_time_format (String.toList "1000") = some (10, 0) := by
  decide

/-- C3 (amended): of the four inputs, `"0"`, `"abcd"` and `""` indeed
fail (no `(hours, minutes)` value), while `"1000"` parses as the HHMM
time `(10, 0)`. -/
theorem c3_amended_examples :
    validate_time_format (String.toList "0") = none ∧
    validate_time_format (String.toList "abcd") = none ∧
    validate_time_format (String.toList "") = none ∧
    validate_time_format (String.toList "1000") = some (10, 0) := by
  decide

/-- C4 counterexample: the read-only count operation is claimed to leave
no empty placeholder entry, but `get_timer_count` goes through
`setdefault`: counting the timers of an absent owner inserts the entry
`(1, [])` — an owner with zero timers that now has a registry row. -/
theorem c4_counterexample :
    get_timer_count ⟨[], []⟩ 1 = (⟨[(1, [])], []⟩, 0) ∧
      ¬ NoEmptyEntries [(1, [])] := by
  refine ⟨by decide, fun h => h (1, []) (by simp) rfl⟩

/-- C4 (amended): the no-empty-entry invariant holds in the initial
empty registry and is preserved by `add_timer` and by every
`remove_timer` call that actually removes a timer (the owner's entry is
deleted when its dict empties); it is *not* preserved by the operations
that reach an absent owner through `setdefault` (count, list/view,
failed removal), which materialize an empty placeholder entry. -/
theorem c4_amended_no_empty_entries :
    NoEmptyEntries ([] : Registry) ∧
    (∀ r u tid d e j n, KeysNodup r → NoEmptyEntries r →
      NoEmptyEntries (add_timer r u tid d e j n)) ∧
    (∀ s u tid, KeysNodup s.active_timers → NoEmptyEntries s.active_timers →
      (remove_timer s u tid).2 = true →
      NoEmptyEntries (remove_timer s u tid).1.active_timers) := by
  refine ⟨fun p hp => absurd hp (List.not_mem_nil p), ?_, ?_⟩
  · intro r u tid d e j n hnd hne
    unfold add_timer
    cases hu : dictLookup r u with
    | some ts =>
        simp only [get_user_timers, hu]
        intro p hp
        rcases mem_dictInsert_of_nodup _ _ _ p hnd hp with hp | hp
        · rw [hp]
          exact dictInsert_ne_nil _ _ _
        · exact hne p hp.1
    | none =>
        simp only [get_user_timers, hu]
        have hkeys : KeysNodup (r ++ [(u, [])]) := by
          unfold KeysNodup
          rw [List.map_append]
          rw [List.nodup_append]
          refine ⟨hnd, by simp, ?_⟩
          intro a ha hb
          simp at hb
          subst hb
          exact dictLookup_none_of_not_key r a hu ha
        intro p hp
        rcases mem_dictInsert_of_nodup _ _ _ p hkeys hp with hp | hp
        · rw [hp]
          exact dictInsert_ne_nil _ _ _
        · rcases List.mem_append.mp hp.1 with hq | hq
          · exact hne p hq
          · simp at hq
            have hq1 : p.1 = u := by rw [hq]
            exact absurd hq1 hp.2
  · intro s u tid hnd hne htrue
    cases hto : timerOf s u tid with
    | none =>
        rw [← remove_timer_false_iff] at hto
        rw [hto] at htrue
        simp at htrue
    | some info =>
        unfold timerOf timerOfR at hto
        cases hu : dictLookup s.active_timers u with
        | none => simp [hu] at hto
        | some ts =>
            rw [hu] at hto
            rw [remove_timer_found s u tid ts info hu hto]
            by_cases he : (dictRemove ts tid).isEmpty
            · simp only [he, if_pos]
              intro p hp
              exact hne p (mem_dictRemove_sub _ _ p hp)
            · simp only [he, if_neg, Bool.false_eq_true, not_false_eq_true]
              intro p hp
              rcases mem_dictInsert_of_nodup _ _ _ p hnd hp with hp | hp
              · intro hnil
                apply he
                rw [hp] at hnil
                simp at hnil
                simp [hnil]
              · exact hne p hp.1

/-- C4 witness: the amended preservation applied at a concrete input —
adding a timer to the empty registry yields a registry with no empty
owner entry. -/
theorem c4_witness : NoEmptyEntries (add_timer [] 1 "a" "d" 5 0 0) :=
  c4_amended_no_empty_entries.2.1 [] 1 "a" "d" 5 0 0 (by simp [KeysNodup])
    (fun p hp => absurd hp (List.not_mem_nil p))

theorem countOf_step_le (s t : BotState) (hs : Step s t)
    (ih : ∀ w, countOf s w ≤ MAX_TIMERS_PER_USER) :
    ∀ v, countOf t v ≤ MAX_TIMERS_PER_USER := by
  cases hs with
  | touch u =>
      intro v
      show countOfR (get_user_timers s.active_timers u).1 v ≤ _
      rw [countOfR_touch]
      exact ih v
  | submit u tstr tid now jobId ets =>
      intro v
      exact countOf_handle_le s u tstr tid now jobId ets ih v
  | cancelOne u tid =>
      intro v
      exact le_trans (countOf_remove_le s u tid v) (ih v)
  | cancelAll u =>
      intro v
      exact le_trans (countOf_cancel_all_le s u v) (ih v)
  | fire u tid d =>
      intro v
      exact le_trans (countOf_timer_callback_le s u tid d v) (ih v)
  | jobFires j =>
      intro v
      exact ih v
  | viewList u page n =>
      intro v
      show countOfR (format_timer_list s.active_timers u page n).1 v ≤ _
      rw [format_timer_list_fst, countOfR_touch]
      exact ih v

/-- C5: no owner ever holds more than `MAX_TIMERS_PER_USER = 10` timers:
every state reachable from the empty registry through the module's
operations satisfies `countOf s u ≤ 10` for every owner, and a
submission (`handle_time`) for an owner already at 10 returns the
capacity rejection, creating no timer, scheduling no job, and leaving
the state — hence the owner's count — untouched. -/
theorem c5_capacity_invariant :
    (∀ s, Reachable s → ∀ u, countOf s u ≤ MAX_TIMERS_PER_USER) ∧
    (∀ (s : BotState) (u : Nat) (tstr : List Char) (tid : String) (now : Int)
        (jobId : Nat) (ets : String),
      countOf s u = MAX_TIMERS_PER_USER →
      handle_time s u tstr tid now jobId ets =
        (s, .capacityError MAX_TIMERS_PER_USER)) := by
  constructor
  · intro s hr
    induction hr with
    | init =>
        intro u
        simp [countOf, countOfR, dictLookup, MAX_TIMERS_PER_USER]
    | step hr hs ih => exact countOf_step_le _ _ hs ih
  · intro s u tstr tid now jobId ets h
    unfold countOf countOfR at h
    cases hu : dictLookup s.active_timers u with
    | none => simp [hu, MAX_TIMERS_PER_USER] at h
    | some ts =>
        rw [hu] at h
        simp only at h
        unfold handle_time get_timer_count
        simp only [get_user_timers, hu, h, le_refl, if_pos]

/-- C5 witness: the invariant at the initial state, and the capacity
rejection at a concrete owner holding exactly 10 timers. -/
theorem c5_witness :
    countOf ⟨[], []⟩ 3 ≤ MAX_TIMERS_PER_USER ∧
    handle_time
      ⟨[(1, [("t0", ⟨"d", 5, 0, 0⟩), ("t1", ⟨"d", 5, 1, 1⟩), ("t2", ⟨"d", 5, 2, 2⟩),
            ("t3", ⟨"d", 5, 3, 3⟩), ("t4", ⟨"d", 5, 4, 4⟩), ("t5", ⟨"d", 5, 5, 5⟩),
            ("t6", ⟨"d", 5, 6, 6⟩), ("t7", ⟨"d", 5, 7, 7⟩), ("t8", ⟨"d", 5, 8, 8⟩),
            ("t9", ⟨"d", 5, 9, 9⟩)])], [0, 1, 2, 3, 4, 5, 6, 7, 8, 9]⟩
      1 (String.toList "30") "fresh" 100 10 "x" =
      (⟨[(1, [("t0", ⟨"d", 5, 0, 0⟩), ("t1", ⟨"d", 5, 1, 1⟩), ("t2", ⟨"d", 5, 2, 2⟩),
            ("t3", ⟨"d", 5, 3, 3⟩), ("t4", ⟨"d", 5, 4, 4⟩), ("t5", ⟨"d", 5, 5, 5⟩),
            ("t6", ⟨"d", 5, 6, 6⟩), ("t7", ⟨"d", 5, 7, 7⟩), ("t8", ⟨"d", 5, 8, 8⟩),
            ("t9", ⟨"d", 5, 9, 9⟩)])], [0, 1, 2, 3, 4, 5, 6, 7, 8, 9]⟩,
        .capacityError MAX_TIMERS_PER_USER) :=
  ⟨c5_capacity_invariant.1 ⟨[], []⟩ Reachable.init 3,
    c5_capacity_invariant.2 _ 1 (String.toList "30") "fresh" 100 10 "x" (by decide)⟩

/-- C6 counterexample: `remove_timer` on a timer that is not found is
claimed to change nothing, but the lookup goes through `setdefault`:
removing from the empty registry returns `false` yet leaves the empty
placeholder entry `(1, [])` behind — the state did change. -/
theorem c6_counterexample :
    remove_timer ⟨[], []⟩ 1 "a" = (⟨[(1, [])], []⟩, false) ∧
      (⟨[(1, [])], []⟩ : BotState) ≠ (⟨[], []⟩ : BotState) := by
  decide

/-- C6 (amended): when the timer is not found, `remove_timer` returns
`false`, removes no timer and changes no count or timer (though it
materializes an empty entry for a previously-absent owner via
`setdefault`); when found, it returns `true`, erases the stored job
handle from the live job list (a safe no-op when the job already
fired), deletes the timer entry, decrements the owner's count, deletes
the owner's entry exactly when the set becomes empty, and a second
removal of the same id returns `false`. -/
theorem c6_amended_remove_semantics :
    (∀ (s : BotState) (u : Nat) (t : String), timerOf s u t = none →
      remove_timer s u t =
        (⟨(get_user_timers s.active_timers u).1, s.jobs⟩, false) ∧
      (∀ v, countOf (remove_timer s u t).1 v = countOf s v) ∧
      (∀ v tt, timerOf (remove_timer s u t).1 v tt = timerOf s v tt)) ∧
    (∀ (s : BotState) (u : Nat) (t : String) (ts : UserTimers) (info : TimerInfo),
      dictLookup s.active_timers u = some ts → dictLookup ts t = some info →
      KeysNodup ts →
      (remove_timer s u t).2 = true ∧
      (remove_timer s u t).1.jobs = s.jobs.erase info.job ∧
      (info.job ∉ s.jobs → (remove_timer s u t).1.jobs = s.jobs) ∧
      timerOf (remove_timer s u t).1 u t = none ∧
      countOf (remove_timer s u t).1 u = countOf s u - 1 ∧
      (dictLookup (remove_timer s u t).1.active_timers u = none ↔ ts.length = 1) ∧
      (remove_timer (remove_timer s u t).1 u t).2 = false) := by
  constructor
  · intro s u t h
    refine ⟨remove_timer_not_found s u t h, ?_, ?_⟩
    · intro v
      rw [remove_timer_not_found s u t h]
      show countOfR (get_user_timers s.active_timers u).1 v = countOfR s.active_timers v
      exact countOfR_touch _ _ _
    · intro v tt
      rw [remove_timer_not_found s u t h]
      show timerOfR (get_user_timers s.active_timers u).1 v tt =
        timerOfR s.active_timers v tt
      exact timerOfR_touch _ _ _ _
  · intro s u t ts info hu ht hnd
    have hfound := remove_timer_found s u t ts info hu ht
    have hts_ne : ts ≠ [] := by
      intro he
      rw [he] at ht
      simp [dictLookup] at ht
    have hts_pos : 1 ≤ ts.length := by
      cases ts with
      | nil => exact absurd rfl hts_ne
      | cons _ _ => simp
    have hlen : (dictRemove ts t).length = ts.length - 1 :=
      length_dictRemove_of_nodup ts t info hnd ht
    have hafter : timerOf (remove_timer s u t).1 u t = none := by
      rw [hfound]
      unfold timerOf timerOfR
      by_cases he : (dictRemove ts t).isEmpty
      · simp only [he, if_pos]
        rw [dictLookup_remove_self]
      · simp only [he, Bool.false_eq_true, if_neg, not_false_eq_true]
        rw [dictLookup_insert_self]
        exact dictLookup_remove_self ts t
    refine ⟨by rw [hfound], by rw [hfound], ?_, hafter, ?_, ?_, ?_⟩
    · intro hnm
      rw [hfound]
      exact List.erase_of_not_mem hnm
    · rw [hfound]
      unfold countOf countOfR
      by_cases he : (dictRemove ts t).isEmpty
      · simp only [he, if_pos]
        rw [dictLookup_remove_self, hu]
        have h0 : (dictRemove ts t).length = 0 := by
          rw [List.isEmpty_iff.mp he]
          rfl
        simp only
        omega
      · simp only [he, Bool.false_eq_true, if_neg, not_false_eq_true]
        rw [dictLookup_insert_self, hu]
        simpa using hlen
    · rw [hfound]
      by_cases he : (dictRemove ts t).isEmpty
      · simp only [he, if_pos]
        have h0 : (dictRemove ts t).length = 0 := by
          rw [List.isEmpty_iff.mp he]
          rfl
        constructor
        · intro _
          omega
        · intro _
          exact dictLookup_remove_self _ _
      · simp only [he, Bool.false_eq_true, if_neg, not_false_eq_true]
        rw [dictLookup_insert_self]
        have hr_ne : dictRemove ts t ≠ [] := by
          intro he2
          rw [he2] at he
          simp at he
        refine ⟨fun hc => absurd hc (by simp), fun hc => ?_⟩
        exact absurd (List.length_eq_zero.mp (by omega)) hr_ne
    · exact (remove_timer_false_iff _ _ _).mpr hafter

/-- C6 witness: the found case applied at a concrete one-timer state —
removal returns `true`, cancels job 3, empties the owner, and the second
removal returns `false`. -/
theorem c6_witness :
    (remove_timer ⟨[(1, [("a", ⟨"d", 5, 3, 0⟩)])], [3]⟩ 1 "a").2 = true ∧
    (remove_timer (remove_timer ⟨[(1, [("a", ⟨"d", 5, 3, 0⟩)])], [3]⟩ 1 "a").1
      1 "a").2 = false := by
  have h := c6_amended_remove_semantics.2 ⟨[(1, [("a", ⟨"d", 5, 3, 0⟩)])], [3]⟩
    1 "a" [("a", ⟨"d", 5, 3, 0⟩)] ⟨"d", 5, 3, 0⟩ (by decide) (by decide)
    (by simp [KeysNodup])
  exact ⟨h.1, h.2.2.2.2.2.2⟩

theorem foldRemove_spec (u : Nat) (ts : UserTimers) :
    ∀ (s : BotState) (c : Nat),
      dictLookup s.active_timers u = some ts → KeysNodup ts →
      (ts.foldl (cancelStep u) (s, c)).2 = c + ts.length ∧
      (ts = [] ∨
        dictLookup ((ts.foldl (cancelStep u) (s, c)).1).active_timers u = none) := by
  induction ts with
  | nil =>
      intro s c _ _
      exact ⟨by simp, Or.inl rfl⟩
  | cons p rest ih =>
      intro s c hu hnd
      rcases p with ⟨t, v⟩
      have hhead : dictLookup ((t, v) :: rest) t = some v := by simp [dictLookup]
      have hfound := remove_timer_found s u t ((t, v) :: rest) v hu hhead
      have hnd' : KeysNodup (((t, v) :: rest) : UserTimers) := hnd
      rcases List.nodup_cons.mp hnd' with ⟨hk, hndr⟩
      have hrest : dictRemove ((t, v) :: rest) t = rest := by
        simp only [dictRemove, if_pos rfl]
        apply dictRemove_of_no_key
        intro q hq he
        have hmem : q.1 ∈ rest.map Prod.fst := List.mem_map_of_mem Prod.fst hq
        exact hk (he ▸ hmem)
      rw [List.foldl_cons]
      have hstep : cancelStep u (s, c) (t, v) =
          (⟨if rest.isEmpty then dictRemove s.active_timers u
            else dictInsert s.active_timers u rest, s.jobs.erase v.job⟩, c + 1) := by
        unfold cancelStep
        simp [hfound, hrest]
      rw [hstep]
      by_cases hre : rest = []
      · subst hre
        simp only [List.isEmpty_nil, if_pos, List.foldl_nil]
        exact ⟨by simp, Or.inr (dictLookup_remove_self _ _)⟩
      · have hef : rest.isEmpty = false := isEmpty_false_of_ne_nil hre
        simp only [hef, Bool.false_eq_true, if_neg, not_false_eq_true]
        have hu' : dictLookup
            ((⟨dictInsert s.active_timers u rest, s.jobs.erase v.job⟩ :
              BotState)).active_timers u = some rest :=
          dictLookup_insert_self _ _ _
        have hih := ih ⟨dictInsert s.active_timers u rest, s.jobs.erase v.job⟩
          (c + 1) hu' hndr
        refine ⟨?_, ?_⟩
        · rw [hih.1]
          simp
          omega
        · rcases hih.2 with h | h
          · exact absurd h hre
          · exact Or.inr h

/-- C7: bulk cancellation (the shared code of the `/cancel` command and
the cancel-all button) snapshots the owner's dict, removes each
snapshotted id, returns the number successfully removed — which equals
the owner's prior count — and leaves the owner's count at 0. -/
theorem c7_remove_all (s : BotState) (u : Nat)
    (hnd : ∀ ts, dictLookup s.active_timers u = some ts → KeysNodup ts) :
    (cancel_all_timers s u).2 = countOf s u ∧
    countOf (cancel_all_timers s u).1 u = 0 := by
  unfold cancel_all_timers get_timer_count
  cases hu : dictLookup s.active_timers u with
  | none =>
      simp only [get_user_timers, hu, List.length_nil, lt_irrefl, if_neg,
        not_false_eq_true]
      constructor
      · show 0 = countOf s u
        unfold countOf countOfR
        rw [hu]
      · show countOfR (s.active_timers ++ [(u, [])]) u = 0
        unfold countOfR
        rw [dictLookup_append, hu]
        simp [dictLookup]
  | some ts =>
      simp only [get_user_timers, hu]
      by_cases hpos : 0 < ts.length
      · simp only [hpos, if_pos]
        have hts_ne : ts ≠ [] := by
          intro he
          rw [he] at hpos
          simp at hpos
        have hspec := foldRemove_spec u ts ⟨s.active_timers, s.jobs⟩ 0 hu (hnd ts hu)
        constructor
        · rw [hspec.1]
          unfold countOf countOfR
          rw [hu]
          simp
        · rcases hspec.2 with h | h
          · exact absurd h hts_ne
          · unfold countOf countOfR
            rw [h]
      · simp only [hpos, if_neg, not_false_eq_true]
        have h0 : ts.length = 0 := by omega
        constructor
        · show 0 = countOf s u
          unfold countOf countOfR
          rw [hu]
          show 0 = ts.length
          omega
        · show countOfR s.active_timers u = 0
          unfold countOfR
          rw [hu]
          show ts.length = 0
          omega

/-- C7 witness: an owner with 3 timers — bulk cancellation returns 3 and
leaves the count at 0. -/
theorem c7_witness :
    (cancel_all_timers ⟨[(1, [("a", ⟨"d", 5, 0, 0⟩), ("b", ⟨"d", 5, 1, 1⟩),
        ("c", ⟨"d", 5, 2, 2⟩)])], [0, 1, 2]⟩ 1).2 = 3 ∧
    countOf (cancel_all_timers ⟨[(1, [("a", ⟨"d", 5, 0, 0⟩), ("b", ⟨"d", 5, 1, 1⟩),
        ("c", ⟨"d", 5, 2, 2⟩)])], [0, 1, 2]⟩ 1).1 1 = 0 := by
  have h := c7_remove_all ⟨[(1, [("a", ⟨"d", 5, 0, 0⟩), ("b", ⟨"d", 5, 1, 1⟩),
      ("c", ⟨"d", 5, 2, 2⟩)])], [0, 1, 2]⟩ 1
    (by
      intro ts hts
      simp [dictLookup] at hts
      subst hts
      simp [KeysNodup])
  exact ⟨h.1.trans (by decide), h.2⟩

/-- C8 counterexample: for an owner with no timers the view builder does
not produce a row slice and flag pair at all: at page 1 the claim
requires `has_prev = true`, but `format_timer_list` returns the
"no active timers" screen (modelled as `none`, with no pagination
flags — and the `setdefault` placeholder in the registry). -/
theorem c8_counterexample :
    format_timer_list [] 1 1 5 = ([(1, [])], none) := by
  decide

/-- C8 (amended): for every owner holding at least one timer, the view
builder returns exactly the slice `[page*page_size, page*page_size +
page_size)` of the owner's timers sorted by `created_at` ascending,
with `has_prev = (page > 0)` and `has_next = ((page+1)*page_size <
total_count)`, and an out-of-range page yields an empty row slice
without error; an owner with no timers gets the no-timers screen with
no pagination flags instead. -/
theorem c8_amended_pagination (r : Registry) (u page ipp : Nat) (ts : UserTimers)
    (hu : dictLookup r u = some ts) (hne : ts ≠ []) :
    ∃ sorted : UserTimers,
      sorted.Perm ts ∧
      List.Sorted createdLe sorted ∧
      format_timer_list r u page ipp =
        (r, some ((sorted.drop (page * ipp)).take ipp,
          decide (0 < page), decide ((page + 1) * ipp < ts.length))) ∧
      (ts.length ≤ page * ipp → (sorted.drop (page * ipp)).take ipp = []) := by
  have hlen : (List.insertionSort createdLe ts).length = ts.length :=
    (List.perm_insertionSort createdLe ts).length_eq
  refine ⟨List.insertionSort createdLe ts, List.perm_insertionSort _ _,
    List.sorted_insertionSort _ _, ?_, ?_⟩
  · unfold format_timer_list
    simp only [get_user_timers, hu]
    have hef : ts.isEmpty = false := isEmpty_false_of_ne_nil hne
    simp only [hef, Bool.false_eq_true, if_neg, not_false_eq_true]
    rw [hlen]
    have hidx : (page + 1) * ipp = page * ipp + ipp := by ring
    rw [hidx]
  · intro hle
    rw [List.drop_eq_nil_of_le (by omega), List.take_nil]

/-- Seven timers of one owner, `created_at` 0 through 6 (C8's example). -/
def c8SampleTimers : UserTimers :=
  [("a0", ⟨"d", 9, 0, 0⟩), ("a1", ⟨"d", 9, 1, 1⟩), ("a2", ⟨"d", 9, 2, 2⟩),
   ("a3", ⟨"d", 9, 3, 3⟩), ("a4", ⟨"d", 9, 4, 4⟩), ("a5", ⟨"d", 9, 5, 5⟩),
   ("a6", ⟨"d", 9, 6, 6⟩)]

/-- C8 witness: the amended pagination contract at an owner with 7
timers, `page = 1`, `page_size = 5` (2 rows, `has_prev`, no
`has_next`). -/
theorem c8_witness :
    ∃ sorted : UserTimers,
      sorted.Perm c8SampleTimers ∧
      List.Sorted createdLe sorted ∧
      format_timer_list [(1, c8SampleTimers)] 1 1 5 =
        ([(1, c8SampleTimers)],
          some ((sorted.drop (1 * 5)).take 5, decide (0 < 1),
            decide ((1 + 1) * 5 < c8SampleTimers.length))) ∧
      (c8SampleTimers.length ≤ 1 * 5 → (sorted.drop (1 * 5)).take 5 = []) :=
  c8_amended_pagination [(1, c8SampleTimers)] 1 1 5 c8SampleTimers
    (by decide) (by decide)

/-- C9 counterexample: `handle_time` draws the uuid-prefix timer id with
no collision check.  When the drawn id `"ab"` already names a timer of
owner 1, the claim demands a retried fresh id and a count one greater;
the code instead lets `add_timer` overwrite the existing timer: the
count stays 1 and the old timer record is gone. -/
theorem c9_counterexample :
    countOf (handle_time ⟨[(1, [("ab", ⟨"d", 5, 0, 0⟩)])], [0]⟩ 1
        (String.toList "30") "ab" 100 1 "x").1 1 = 1 ∧
    timerOf (handle_time ⟨[(1, [("ab", ⟨"d", 5, 0, 0⟩)])], [0]⟩ 1
        (String.toList "30") "ab" 100 1 "x").1 1 "ab" ≠ some ⟨"d", 5, 0, 0⟩ := by
  decide

/-- C9 (amended): on a successful creation (capacity free, input valid)
the owner's count becomes exactly one greater when the drawn id is not
already in the owner's set; when the drawn id collides, the existing
timer is silently overwritten and the count is unchanged — the code
performs no collision retry. -/
theorem c9_amended_fresh_id (s : BotState) (u : Nat) (tstr : List Char)
    (tid : String) (now : Int) (jobId : Nat) (ets : String) (hm : Nat × Nat)
    (hcap : countOf s u < MAX_TIMERS_PER_USER)
    (hp : validate_time_format tstr = some hm) :
    (timerOfR s.active_timers u tid = none →
      countOf (handle_time s u tstr tid now jobId ets).1 u = countOf s u + 1) ∧
    (∀ info, timerOfR s.active_timers u tid = some info →
      countOf (handle_time s u tstr tid now jobId ets).1 u = countOf s u) := by
  have hc2 : ¬ MAX_TIMERS_PER_USER ≤ (get_user_timers s.active_timers u).2.length := by
    rw [gut_snd_length]
    unfold countOf at hcap
    omega
  constructor
  · intro hfresh
    unfold handle_time get_timer_count
    simp only [hc2, if_neg, not_false_eq_true, hp]
    unfold add_timer
    rw [gut_idem]
    simp only
    unfold countOf countOfR
    rw [dictLookup_insert_self]
    have hf2 : dictLookup (get_user_timers s.active_timers u).2 tid = none := by
      rw [gut_snd_lookup]
      exact hfresh
    show (dictInsert (get_user_timers s.active_timers u).2 tid
        ⟨description_of hm.1 hm.2 ets,
          now + ((hm.1 * 3600 + hm.2 * 60 : Nat) : Int), jobId, now⟩).length = _
    rw [length_dictInsert_of_lookup_none _ _ _ hf2, gut_snd_length]
    rfl
  · intro info hcol
    unfold handle_time get_timer_count
    simp only [hc2, if_neg, not_false_eq_true, hp]
    unfold add_timer
    rw [gut_idem]
    simp only
    unfold countOf countOfR
    rw [dictLookup_insert_self]
    have hf2 : dictLookup (get_user_timers s.active_timers u).2 tid = some info := by
      rw [gut_snd_lookup]
      exact hcol
    show (dictInsert (get_user_timers s.active_timers u).2 tid
        ⟨description_of hm.1 hm.2 ets,
          now + ((hm.1 * 3600 + hm.2 * 60 : Nat) : Int), jobId, now⟩).length = _
    rw [length_dictInsert_of_lookup_some _ _ _ info hf2, gut_snd_length]
    rfl

/-- C9 witness: creating a timer with a fresh id in the empty registry
raises the owner's count from 0 to 1. -/
theorem c9_witness :
    countOf (handle_time ⟨[], []⟩ 1 (String.toList "30") "ab" 100 1 "x").1 1 =
      countOf ⟨[], []⟩ 1 + 1 :=
  (c9_amended_fresh_id ⟨[], []⟩ 1 (String.toList "30") "ab" 100 1 "x" (0, 30)
    (by decide) (by decide)).1 (by decide)

/-- C10: the single-timer registry mutations are frame-local: `add_timer`
and `remove_timer` on `(u, tid)` leave every other owner's entry
unchanged and every timer of `u` other than `tid` unchanged. -/
theorem c10_frame :
    (∀ (r : Registry) (u : Nat) (tid d : String) (e : Int) (j : Nat) (n : Int)
        (v : Nat), v ≠ u →
      dictLookup (add_timer r u tid d e j n) v = dictLookup r v) ∧
    (∀ (r : Registry) (u : Nat) (tid d : String) (e : Int) (j : Nat) (n : Int)
        (tt : String), tt ≠ tid →
      timerOfR (add_timer r u tid d e j n) u tt = timerOfR r u tt) ∧
    (∀ (s : BotState) (u : Nat) (tid : String) (v : Nat), v ≠ u →
      dictLookup (remove_timer s u tid).1.active_timers v =
        dictLookup s.active_timers v) ∧
    (∀ (s : BotState) (u : Nat) (tid tt : String), tt ≠ tid →
      timerOf (remove_timer s u tid).1 u tt = timerOf s u tt) := by
  refine ⟨?_, ?_, ?_, ?_⟩
  · intro r u tid d e j n v hv
    unfold add_timer
    rw [dictLookup_insert_other _ _ _ _ hv, gut_lookup_other _ _ _ hv]
  · intro r u tid d e j n tt htt
    have h1 : dictLookup (add_timer r u tid d e j n) u =
        some (dictInsert (get_user_timers r u).2 tid ⟨d, e, j, n⟩) := by
      unfold add_timer
      exact dictLookup_insert_self _ _ _
    show (match dictLookup (add_timer r u tid d e j n) u with
      | some ts => dictLookup ts tt
      | none => none) = timerOfR r u tt
    rw [h1]
    show dictLookup (dictInsert (get_user_timers r u).2 tid ⟨d, e, j, n⟩) tt =
      timerOfR r u tt
    rw [dictLookup_insert_other _ _ _ _ htt, gut_snd_lookup]
  · intro s u tid v hv
    cases hu : dictLookup s.active_timers u with
    | none =>
        have h : timerOf s u tid = none := by simp [timerOf, timerOfR, hu]
        rw [remove_timer_not_found s u tid h]
        exact gut_lookup_other _ _ _ hv
    | some ts =>
        cases ht : dictLookup ts tid with
        | none =>
            have h : timerOf s u tid = none := by simp [timerOf, timerOfR, hu, ht]
            rw [remove_timer_not_found s u tid h]
            exact gut_lookup_other _ _ _ hv
        | some info =>
            rw [remove_timer_found s u tid ts info hu ht]
            by_cases he : (dictRemove ts tid).isEmpty
            · simp only [he, if_pos]
              exact dictLookup_remove_other _ _ _ hv
            · simp only [he, Bool.false_eq_true, if_neg, not_false_eq_true]
              exact dictLookup_insert_other _ _ _ _ hv
  · intro s u tid tt htt
    cases hu : dictLookup s.active_timers u with
    | none =>
        have h : timerOf s u tid = none := by simp [timerOf, timerOfR, hu]
        rw [remove_timer_not_found s u tid h]
        show timerOfR (get_user_timers s.active_timers u).1 u tt =
          timerOfR s.active_timers u tt
        exact timerOfR_touch _ _ _ _
    | some ts =>
        cases ht : dictLookup ts tid with
        | none =>
            have h : timerOf s u tid = none := by simp [timerOf, timerOfR, hu, ht]
            rw [remove_timer_not_found s u tid h]
            show timerOfR (get_user_timers s.active_timers u).1 u tt =
              timerOfR s.active_timers u tt
            exact timerOfR_touch _ _ _ _
        | some info =>
            rw [remove_timer_found s u tid ts info hu ht]
            by_cases he : (dictRemove ts tid).isEmpty
            · simp only [he, if_pos]
              unfold timerOf timerOfR
              rw [dictLookup_remove_self, hu]
              have hkeys := dictRemove_eq_nil_keys ts tid (List.isEmpty_iff.mp he)
              have hnone : dictLookup ts tt = none := by
                apply dictLookup_eq_none_of_keys
                intro p hp
                rw [hkeys p hp]
                exact fun hh => htt hh.symm
              show (none : Option TimerInfo) = dictLookup ts tt
              exact hnone.symm
            · simp only [he, Bool.false_eq_true, if_neg, not_false_eq_true]
              unfold timerOf timerOfR
              rw [dictLookup_insert_self, hu]
              show dictLookup (dictRemove ts tid) tt = dictLookup ts tt
              exact dictLookup_remove_other _ _ _ htt

/-- C10 witness: the frame property at concrete inputs — adding a timer
for owner 1 leaves owner 2's entry as it was, and removing owner 1's
timer `"a"` leaves their other timer `"b"` as it was. -/
theorem c10_witness :
    dictLookup (add_timer [(2, [("z", ⟨"d", 5, 0, 0⟩)])] 1 "a" "d" 5 0 0) 2 =
      dictLookup [(2, [("z", ⟨"d", 5, 0, 0⟩)])] 2 ∧
    timerOf (remove_timer ⟨[(1, [("a", ⟨"d", 5, 0, 0⟩), ("b", ⟨"e", 6, 1, 1⟩)])],
        [0, 1]⟩ 1 "a").1 1 "b" =
      timerOf ⟨[(1, [("a", ⟨"d", 5, 0, 0⟩), ("b", ⟨"e", 6, 1, 1⟩)])], [0, 1]⟩ 1 "b" :=
  ⟨c10_frame.1 [(2, [("z", ⟨"d", 5, 0, 0⟩)])] 1 "a" "d" 5 0 0 2 (by decide),
    c10_frame.2.2.2 ⟨[(1, [("a", ⟨"d", 5, 0, 0⟩), ("b", ⟨"e", 6, 1, 1⟩)])], [0, 1]⟩
      1 "a" "b" (by decide)⟩

end WashingTimer
